import Mathlib

/-!
Verification of the result-derivation and presentation pipeline of the
Medicare risk adjustment model webapp (streamlit_app.py).

Numeric values (Python floats) are shallowly embedded as rationals.
Python division by zero is modelled with an explicit error value, since
Python raises ZeroDivisionError on `x / 0` for ints and floats alike.
-/

set_option maxHeartbeats 1000000

namespace RiskApp

/-- Python runtime errors relevant to this pipeline. -/
inductive PyErr where
  | zeroDivision
deriving DecidableEq, Repr

/-- Python division: raises ZeroDivisionError when the divisor is zero. -/
def pydiv (a b : ℚ) : Except PyErr ℚ :=
  if b = 0 then .error .zeroDivision else .ok (a / b)

/-- Round-half-to-even on rationals, modelling how Python `round` breaks ties. -/
def roundHalfEven (q : ℚ) : ℤ :=
  let f := Int.floor q
  let r := q - (f : ℚ)
  if r < 1/2 then f
  else if 1/2 < r then f + 1
  else if f % 2 = 0 then f else f + 1

/-- Python `round(q, 3)`: round to three decimal places, ties to even. -/
def pyRound3 (q : ℚ) : ℚ := (roundHalfEven (q * 1000) : ℚ) / 1000

/-- The Result dataclass returned by the scoring engine, as consumed by the
app: six numeric score fields plus the nested `category_details` mapping
(category name to a record of attribute name / value pairs).  The numeric
type is a parameter so that the same shape serves both the rational
embedding of the arithmetic and the decimal-literal embedding used for the
JSON export. -/
structure Result (α : Type) where
  score : α
  score_raw : α
  disease_score : α
  demographic_score : α
  disease_score_raw : α
  demographic_score_raw : α
  category_details : List (String × List (String × α))
deriving DecidableEq, Repr

/-- The derived proportions computed from a Result (spec section 3). -/
structure DerivedProportions where
  disease_score_pct : ℚ
  demographic_score_pct : ℚ
deriving DecidableEq, Repr

/-- The derivation of DerivedProportions, from streamlit_app.py lines 69-70
(and identically lines 122-123): `disease_score_pct` is
`round(result.disease_score / result.score, 3)` and `demographic_score_pct`
is `1 - disease_score_pct`. -/
def derive (r : Result ℚ) : Except PyErr DerivedProportions := do
  let t ← pydiv r.disease_score r.score
  let d := pyRound3 t
  .ok ⟨d, 1 - d⟩

/-- Python dict lookup over an association list (first match wins). -/
def pyLookup (k : String) : List (String × α) → Option α
  | [] => none
  | (k', v) :: rest => if k' = k then some v else pyLookup k rest

/-- Column union in first-appearance order, as pandas
`DataFrame.from_dict(..., orient="index")` computes the columns. -/
def unionCols (d : List (String × List (String × α))) : List String :=
  d.foldl (fun acc rc =>
    rc.2.foldl (fun acc2 av => if av.1 ∈ acc2 then acc2 else acc2 ++ [av.1]) acc) []

/-- A pandas DataFrame built from a dict of dicts: a row index, a column
list and one cell per row and column, missing attributes being NaN
(modelled as `none`). -/
structure Table (α : Type) where
  index : List String
  columns : List String
  cells : List (List (Option α))
deriving DecidableEq, Repr

/-- `pd.DataFrame.from_dict(d, orient="index")`: rows are the keys of `d`
in order, columns are the union of inner keys in first-appearance order,
and each cell holds the attribute value when present. -/
def dataFrameFromDict (d : List (String × List (String × α))) : Table α :=
  { index := d.map Prod.fst
    columns := unionCols d
    cells := d.map (fun rc => (unionCols d).map (fun c => pyLookup c rc.2)) }

/-- Positional lookup of the value attached to the first occurrence of a
name in a parallel pair of lists. -/
def rowLookup : List String → List β → String → Option β
  | [], _, _ => none
  | _, [], _ => none
  | n :: ns, r :: rs, k => if n = k then some r else rowLookup ns rs k

/-- Cell access in a Table by row and column label. -/
def Table.cell (t : Table α) (rn cn : String) : Option (Option α) :=
  (rowLookup t.index t.cells rn).bind fun row => rowLookup t.columns row cn

/-- The score_results dict built by `display_score_results`
(streamlit_app.py lines 13-24). -/
def scoreResults (r : Result ℚ) : List (String × List (String × ℚ)) :=
  [("Adjusted",
    [("Score", r.score),
     ("Disease Score", r.disease_score),
     ("Demographic Score", r.demographic_score)]),
   ("Unadjusted",
    [("Score", r.score_raw),
     ("Disease Score", r.disease_score_raw),
     ("Demographic Score", r.demographic_score_raw)])]

/-- The DataFrame rendered by `display_score_results`. -/
def display_score_results (r : Result ℚ) : Table ℚ :=
  dataFrameFromDict (scoreResults r)

/-- The DataFrame rendered by `display_category_details`
(streamlit_app.py lines 31-34). -/
def display_category_details (cd : List (String × List (String × ℚ))) : Table ℚ :=
  dataFrameFromDict cd

/-- One plotly bar trace as constructed by the app: a series name, x
categories, y values, and the optional keyword arguments the app sets. -/
structure BarTrace where
  name : String
  x : List String
  y : List ℚ
  marker_color : Option String
  hovertemplate : Option String
deriving DecidableEq, Repr

/-- A plotly bar figure: its traces plus the layout fields the app sets. -/
structure BarFig where
  data : List BarTrace
  title : String
  barmode : Option String
  xaxis_title : Option String
  yaxis_title : Option String
deriving DecidableEq, Repr

/-- A plotly pie figure as built by `display_score_breakdown_pct`. -/
structure PieFig where
  labels : List String
  values : List ℚ
  hole : ℚ
  title : String
deriving DecidableEq, Repr

/-- Decimal digit character. -/
def digitChar (d : Nat) : Char := Char.ofNat (48 + d)

/-- Little-endian decimal digits of a natural number, with explicit fuel
so that the definition is structural. -/
def natDigitsAux : Nat → Nat → List Nat
  | 0, _ => []
  | _ + 1, 0 => []
  | fuel + 1, n + 1 => ((n + 1) % 10) :: natDigitsAux fuel ((n + 1) / 10)

/-- Little-endian decimal digits of a natural number (empty for zero). -/
def natDigits (n : Nat) : List Nat := natDigitsAux n n

/-- Big-endian digit list of a natural number as printed ("0" for zero). -/
def printDigits (n : Nat) : List Nat :=
  if n = 0 then [0] else (natDigits n).reverse

/-- The decimal rendering of a natural number. -/
def printNat (n : Nat) : List Char := (printDigits n).map digitChar

/-- Fraction digits of a remainder over a denominator by long division,
with fuel bounding the number of emitted digits. -/
def fracDigitsAux : Nat → Nat → Nat → List Nat
  | 0, _, _ => []
  | _ + 1, 0, _ => []
  | fuel + 1, r + 1, d => ((r + 1) * 10 / d) :: fracDigitsAux fuel ((r + 1) * 10 % d) d

/-- Decimal rendering of a rational, modelling Python `str` on a float
whose value is that rational: an optional sign, the integer part, a dot,
and the fraction digits (at least one, `0` for an integral value). -/
def floatStr (q : ℚ) : String :=
  let sgn := if q < 0 then "-" else ""
  let n := q.num.natAbs
  let d := q.den
  let frac := if n % d = 0 then [0] else fracDigitsAux 60 (n % d) d
  sgn ++ String.mk (printNat (n / d)) ++ "." ++ String.mk (frac.map digitChar)

/-- The hover template f-string of `score_breakdown` (streamlit_app.py
lines 73-78), applied to a percentage value already multiplied by 100. -/
def pctHover (q : ℚ) : String :=
  "Value: %{y}<br>Pct of Score: " ++ floatStr q ++ "%<extra></extra>"

/-- The figure built by `score_comparison` (streamlit_app.py lines 37-65):
two single-point bar traces, grouped. -/
def score_comparison (r : Result ℚ) : BarFig :=
  { data :=
      [{ name := "Unadjusted Score"
         x := ["Unadjusted Score"]
         y := [r.score_raw]
         marker_color := some "lightsalmon"
         hovertemplate := none },
       { name := "Score"
         x := ["Score"]
         y := [r.score]
         marker_color := some "indianred"
         hovertemplate := none }]
    title := "Unadjusted Score vs Score"
    barmode := some "group"
    xaxis_title := some "Score Type"
    yaxis_title := some "Score" }

/-- The figure built by `score_breakdown` (streamlit_app.py lines 68-105):
the percentage derivation followed by two stacked bar traces over the
single category "Score", each carrying its hover template string. -/
def score_breakdown (r : Result ℚ) : Except PyErr BarFig := do
  let t ← pydiv r.disease_score r.score
  let disease_score_pct := pyRound3 t
  let demographic_score_pct := 1 - disease_score_pct
  .ok
    { data :=
        [{ name := "Disease Score"
           x := ["Score"]
           y := [r.disease_score]
           marker_color := none
           hovertemplate := some (pctHover (disease_score_pct * 100)) },
         { name := "Demographic Score"
           x := ["Score"]
           y := [r.demographic_score]
           marker_color := none
           hovertemplate := some (pctHover (demographic_score_pct * 100)) }]
      title := "Disease vs Demographic Score"
      barmode := some "stack"
      xaxis_title := none
      yaxis_title := none }

/-- One item of rendered Streamlit output. -/
inductive RenderItem where
  | scoreTable (t : Table ℚ)
  | categoryTable (t : Table ℚ)
  | chart (f : BarFig)
  | pie (f : PieFig)
  | download (r : Result ℚ)
deriving DecidableEq, Repr

def RenderItem.isPie : RenderItem → Bool
  | .pie _ => true
  | _ => false

def RenderItem.isChart : RenderItem → Bool
  | .chart _ => true
  | _ => false

def RenderItem.isDownload : RenderItem → Bool
  | .download _ => true
  | _ => false

/-- `display_score_breakdown` (streamlit_app.py lines 108-118): both
figures are built before either is rendered, so a failure in
`score_breakdown` prevents both charts from appearing. -/
def display_score_breakdown (r : Result ℚ) : Except PyErr (List RenderItem) := do
  let fig1 := score_comparison r
  let fig2 ← score_breakdown r
  .ok [.chart fig1, .chart fig2]

/-- `display_score_breakdown_pct` (streamlit_app.py lines 121-138): the
percentage derivation followed by a two-segment pie chart. -/
def display_score_breakdown_pct (r : Result ℚ) : Except PyErr (List RenderItem) := do
  let t ← pydiv r.disease_score r.score
  let disease_score_pct := pyRound3 t
  let demographic_score_pct := 1 - disease_score_pct
  .ok [.pie
    { labels := ["Disease Score", "Demographic Score"]
      values := [disease_score_pct, demographic_score_pct]
      hole := 3/10
      title := "Scores Proportion" }]

/-- The rendering sequence of `main` after a successful engine call
(streamlit_app.py lines 250-254): score table, category table, the two
side-by-side charts, then the download button.  An uncaught Python
exception stops the sequence at the point it is raised, so the items
already emitted stay rendered and the error is reported alongside them. -/
def mainRender (r : Result ℚ) : List RenderItem × Option PyErr :=
  let pre := [RenderItem.scoreTable (display_score_results r),
              RenderItem.categoryTable (display_category_details r.category_details)]
  match display_score_breakdown r with
  | .error e => (pre, some e)
  | .ok charts => (pre ++ charts ++ [RenderItem.download r], none)

/-- Single-character split, modelling Python `str.split(sep)` for a one
character separator: every occurrence of the separator cuts the string,
and the empty string splits into one empty piece. -/
def splitCharAux (sep : Char) : List Char → List Char → List String
  | [], acc => [String.mk acc.reverse]
  | c :: cs, acc =>
    if c = sep then String.mk acc.reverse :: splitCharAux sep cs []
    else splitCharAux sep cs (c :: acc)

def splitChar (sep : Char) (cs : List Char) : List String := splitCharAux sep cs []

/-- The model variant selector of `main` (streamlit_app.py lines 233-237). -/
inductive ModelChoice where
  | V24
  | V28
deriving DecidableEq, Repr

/-- The validated widget inputs read by `main`. -/
structure AppInputs where
  model_version : String
  gender : String
  orec : String
  age : Nat
  medicaid : Bool
  diagnosis_codes : String
  year : Nat
  population : String
deriving DecidableEq, Repr

/-- The single engine invocation assembled by `main`. -/
structure EngineCall where
  model : ModelChoice
  year : Nat
  gender : String
  orec : String
  age : Nat
  medicaid : Bool
  population : String
  diagnosis_codes : List String
  verbose : Bool
deriving DecidableEq, Repr

/-- The engine call built by `main` on a calculate action (streamlit_app.py
lines 229-248): the raw diagnosis text is split on commas and passed to the
engine as is. -/
def engineCall (inp : AppInputs) : EngineCall :=
  { model := if inp.model_version = "V24" then .V24 else .V28
    year := inp.year
    gender := inp.gender
    orec := inp.orec
    age := inp.age
    medicaid := inp.medicaid
    population := inp.population
    diagnosis_codes := splitChar ',' inp.diagnosis_codes.data
    verbose := true }

/-- A JSON document as produced by `json.dumps` on `asdict(result)`.  A
number is a plain decimal literal: an optional sign, the integer part and
the fraction digits (empty for a Python int, nonempty for a float, since
Python prints every non-exponent float with at least one fraction digit). -/
inductive Json where
  | num (neg : Bool) (ip : Nat) (frac : List Nat)
  | str (s : String)
  | obj (fields : List (String × Json))
deriving Repr

/-- A Python float value embedded as the decimal literal it prints as. -/
structure PyNum where
  neg : Bool
  ip : Nat
  frac : List Nat
deriving DecidableEq, Repr

def PyNum.toJson (n : PyNum) : Json := .num n.neg n.ip n.frac

/-- `dataclasses.asdict` on a Result followed by the implicit dict
structure handed to `json.dumps` (streamlit_app.py line 142): the field
names in declaration order, `category_details` as a nested mapping. -/
def asdict (r : Result PyNum) : Json :=
  .obj
    [("score", r.score.toJson),
     ("score_raw", r.score_raw.toJson),
     ("disease_score", r.disease_score.toJson),
     ("demographic_score", r.demographic_score.toJson),
     ("disease_score_raw", r.disease_score_raw.toJson),
     ("demographic_score_raw", r.demographic_score_raw.toJson),
     ("category_details",
      .obj (r.category_details.map fun kc =>
        (kc.1, .obj (kc.2.map fun av => (av.1, av.2.toJson)))))]

/-- Indentation emitted by `json.dumps(..., indent=4)` at a nesting level. -/
def jIndent (lvl : Nat) : List Char := List.replicate (4 * lvl) ' '

mutual

/-- The characters `json.dumps(..., indent=4)` emits for one value at a
nesting level: numbers as decimal literals, strings quoted, dicts either
as `\x7b\x7d` when empty or with one member per line, each indented one
level deeper, members separated by a comma, the closing brace indented at
the level of the dict itself. -/
def printVal : Json → Nat → List Char
  | .num neg ip frac, _ =>
    (if neg then ['-'] else []) ++ printNat ip ++
      (match frac with
       | [] => []
       | fs => '.' :: fs.map digitChar)
  | .str s, _ => '"' :: (s.data ++ ['"'])
  | .obj [], _ => ['{', '}']
  | .obj (f :: fs), lvl =>
    '{' :: '\n' :: (printMembers (f :: fs) (lvl + 1) ++
      '\n' :: (jIndent lvl ++ ['}']))

/-- The member lines of a nonempty dict: indentation, the quoted key, a
colon and a space, the value, and a comma before every further member. -/
def printMembers : List (String × Json) → Nat → List Char
  | [], _ => []
  | [(k, v)], lvl =>
    jIndent lvl ++ ('"' :: (k.data ++ ['"'])) ++ ':' :: ' ' :: printVal v lvl
  | (k, v) :: f :: fs, lvl =>
    jIndent lvl ++ ('"' :: (k.data ++ ['"'])) ++ ':' :: ' ' :: printVal v lvl ++
      ',' :: '\n' :: printMembers (f :: fs) lvl

end

/-- `json.dumps(doc, indent=4)`. -/
def dumps (j : Json) : String := String.mk (printVal j 0)

/-- JSON whitespace. -/
def isWsChar (c : Char) : Bool := c == ' ' || c == '\n' || c == '\t' || c == '\r'

def skipWs : List Char → List Char
  | [] => []
  | c :: cs => if isWsChar c then skipWs cs else c :: cs

def isDigitChar (c : Char) : Bool := 48 ≤ c.toNat && c.toNat ≤ 57

def charDigit (c : Char) : Nat := c.toNat - 48

/-- Maximal run of digit characters at the front of the input, converted
to digit values. -/
def grabDigits : List Char → List Nat × List Char
  | [] => ([], [])
  | c :: cs =>
    if isDigitChar c then
      let p := grabDigits cs
      (charDigit c :: p.1, p.2)
    else ([], c :: cs)

/-- Value of a big-endian digit list. -/
def digitsVal : List Nat → Nat
  | [] => 0
  | d :: ds => d + 10 * digitsVal ds

/-- Parse a JSON number body (after any sign): the integer digits, then an
optional dot followed by fraction digits. -/
def parseNum (neg : Bool) (cs : List Char) : Option (Json × List Char) :=
  match grabDigits cs with
  | ([], _) => none
  | (d :: ds, rest) =>
    let ip := digitsVal (d :: ds).reverse
    match rest with
    | '.' :: cs2 =>
      match grabDigits cs2 with
      | ([], _) => none
      | (f :: fs, rest2) => some (.num neg ip (f :: fs), rest2)
    | _ => some (.num neg ip [], rest)

/-- Collect string characters up to the closing quote. -/
def parseStrAux : List Char → Option (List Char × List Char)
  | [] => none
  | c :: cs =>
    if c = '"' then some ([], cs)
    else (parseStrAux cs).map fun p => (c :: p.1, p.2)

mutual

/-- Recursive-descent JSON value parser (fuel-indexed), accepting the
grammar `json.loads` accepts on the documents this app produces:
whitespace, dicts, strings and plain decimal numbers. -/
def parseVal : Nat → List Char → Option (Json × List Char)
  | 0, _ => none
  | fuel + 1, cs =>
    match skipWs cs with
    | [] => none
    | c :: cs1 =>
      if c = '{' then
        let cs1' := skipWs cs1
        if cs1'.head? = some '}' then some (.obj [], cs1'.tail)
        else (parseMembers fuel cs1').map fun p => (.obj p.1, p.2)
      else if c = '"' then
        (parseStrAux cs1).map fun p => (.str (String.mk p.1), p.2)
      else if c = '-' then parseNum true cs1
      else if isDigitChar c then parseNum false (c :: cs1)
      else none

/-- Parse one or more `"key": value` members followed by a closing brace. -/
def parseMembers : Nat → List Char → Option (List (String × Json) × List Char)
  | 0, _ => none
  | fuel + 1, cs =>
    match skipWs cs with
    | [] => none
    | c :: cs1 =>
      if c = '"' then
        match parseStrAux cs1 with
        | none => none
        | some (k, cs2) =>
          match skipWs cs2 with
          | [] => none
          | c2 :: cs3 =>
            if c2 = ':' then
              match parseVal fuel cs3 with
              | none => none
              | some (v, cs4) =>
                match skipWs cs4 with
                | [] => none
                | c4 :: cs5 =>
                  if c4 = ',' then
                    (parseMembers fuel cs5).map fun p =>
                      ((String.mk k, v) :: p.1, p.2)
                  else if c4 = '}' then some ([(String.mk k, v)], cs5)
                  else none
            else none
      else none

end

/-- `json.loads`: parse the whole document, allowing trailing whitespace. -/
def loads (s : String) : Option Json :=
  match parseVal (s.length + 1) s.data with
  | some (j, rest) => if skipWs rest = [] then some j else none
  | none => none

/-- A string the serializer emits verbatim: printable ASCII without the
quote or backslash characters (anything else `json.dumps` would escape). -/
def strWFb (s : String) : Bool :=
  s.data.all fun c =>
    (32 ≤ c.toNat && c.toNat ≤ 126) && !(c == '"') && !(c == '\\')

mutual

/-- Well-formed document: digit entries below ten and strings that are
serialized verbatim. -/
def jsonWFb : Json → Bool
  | .num _ _ frac => frac.all (· < 10)
  | .str s => strWFb s
  | .obj fs => membersWFb fs

def membersWFb : List (String × Json) → Bool
  | [] => true
  | (k, v) :: fs => strWFb k && jsonWFb v && membersWFb fs

end

mutual

/-- Structural size used as parser fuel lower bound. -/
def jsize : Json → Nat
  | .num .. => 1
  | .str _ => 1
  | .obj fs => 1 + msize fs

def msize : List (String × Json) → Nat
  | [] => 0
  | (_, v) :: fs => 1 + jsize v + msize fs

end

def jsonNum : Json → Option PyNum
  | .num neg ip frac => some ⟨neg, ip, frac⟩
  | _ => none

/-- Read an attribute record back from a parsed member list. -/
def attrsFrom : List (String × Json) → Option (List (String × PyNum))
  | [] => some []
  | (k, v) :: rest => do
    let n ← jsonNum v
    let r ← attrsFrom rest
    some ((k, n) :: r)

def jsonAttrs : Json → Option (List (String × PyNum))
  | .obj fs => attrsFrom fs
  | _ => none

/-- Read the nested category mapping back from a parsed member list. -/
def cdFrom : List (String × Json) → Option (List (String × List (String × PyNum)))
  | [] => some []
  | (k, v) :: rest => do
    let a ← jsonAttrs v
    let r ← cdFrom rest
    some ((k, a) :: r)

def jsonCd : Json → Option (List (String × List (String × PyNum)))
  | .obj fs => cdFrom fs
  | _ => none

/-- Reconstruction of a Result from a parsed document: each field read
back from the top-level mapping, `category_details` from the nested one. -/
def fromDoc : Json → Option (Result PyNum)
  | .obj fields => do
    let sc ← (pyLookup "score" fields).bind jsonNum
    let scr ← (pyLookup "score_raw" fields).bind jsonNum
    let ds ← (pyLookup "disease_score" fields).bind jsonNum
    let dms ← (pyLookup "demographic_score" fields).bind jsonNum
    let dsr ← (pyLookup "disease_score_raw" fields).bind jsonNum
    let dmsr ← (pyLookup "demographic_score_raw" fields).bind jsonNum
    let cd ← (pyLookup "category_details" fields).bind jsonCd
    some ⟨sc, scr, ds, dms, dsr, dmsr, cd⟩
  | _ => none

/-- Rest-of-input shapes a printed value can be followed by. -/
def IsDelim (rest : List Char) : Prop :=
  rest = [] ∨ ∃ c cs, rest = c :: cs ∧ (c = ',' ∨ c = '\n')

section Lemmas

lemma pydiv_of_ne {a b : ℚ} (h : b ≠ 0) : pydiv a b = .ok (a / b) := by
  simp [pydiv, h]

lemma pydiv_zero (a : ℚ) : pydiv a 0 = .error .zeroDivision := by
  simp [pydiv]

lemma derive_of_ne (r : Result ℚ) (h : r.score ≠ 0) :
    derive r = .ok ⟨pyRound3 (r.disease_score / r.score),
      1 - pyRound3 (r.disease_score / r.score)⟩ := by
  simp [derive, pydiv_of_ne h]
  rfl

lemma derive_of_zero (r : Result ℚ) (h : r.score = 0) :
    derive r = .error .zeroDivision := by
  simp [derive, h, pydiv_zero]
  rfl

lemma derive_ok_iff (r : Result ℚ) (d : DerivedProportions) :
    derive r = .ok d ↔
      r.score ≠ 0 ∧ d = ⟨pyRound3 (r.disease_score / r.score),
        1 - pyRound3 (r.disease_score / r.score)⟩ := by
  by_cases h : r.score = 0
  · simp [derive_of_zero r h, h]
  · simp [derive_of_ne r h, h, eq_comm]

lemma score_breakdown_of_ne (r : Result ℚ) (h : r.score ≠ 0) :
    score_breakdown r = .ok
      { data :=
          [{ name := "Disease Score"
             x := ["Score"]
             y := [r.disease_score]
             marker_color := none
             hovertemplate :=
               some (pctHover (pyRound3 (r.disease_score / r.score) * 100)) },
           { name := "Demographic Score"
             x := ["Score"]
             y := [r.demographic_score]
             marker_color := none
             hovertemplate :=
               some (pctHover ((1 - pyRound3 (r.disease_score / r.score)) * 100)) }]
        title := "Disease vs Demographic Score"
        barmode := some "stack"
        xaxis_title := none
        yaxis_title := none } := by
  simp [score_breakdown, pydiv_of_ne h]
  rfl

lemma score_breakdown_of_zero (r : Result ℚ) (h : r.score = 0) :
    score_breakdown r = .error .zeroDivision := by
  simp [score_breakdown, h, pydiv_zero]
  rfl

end Lemmas

/-- C1: for every Result with score different from zero, the derivation
yields `disease_score_pct = round(disease_score / score, 3)`,
`demographic_score_pct = 1 - disease_score_pct` (not an independent
division), and hence the two percentages sum to exactly one. -/
theorem c1_derived_proportions (r : Result ℚ) (h : r.score ≠ 0) :
    ∃ d, derive r = .ok d ∧
      d.disease_score_pct = pyRound3 (r.disease_score / r.score) ∧
      d.demographic_score_pct = 1 - d.disease_score_pct ∧
      d.disease_score_pct + d.demographic_score_pct = 1 := by
  refine ⟨_, derive_of_ne r h, rfl, rfl, by ring⟩

theorem c1_derived_proportions_witness :
    ((⟨100, 90, 60, 40, 55, 35, []⟩ : Result ℚ).score ≠ 0) ∧
      (∃ d, derive ⟨100, 90, 60, 40, 55, 35, []⟩ = .ok d ∧
        d.disease_score_pct = pyRound3 ((60 : ℚ) / 100) ∧
        d.demographic_score_pct = 1 - d.disease_score_pct ∧
        d.disease_score_pct + d.demographic_score_pct = 1) :=
  ⟨by norm_num, c1_derived_proportions ⟨100, 90, 60, 40, 55, 35, []⟩ (by norm_num)⟩

/-- C3: for every Result, the Score Table has rows Adjusted and Unadjusted
under the fixed columns Score, Disease Score and Demographic Score, the
Adjusted row holding `(score, disease_score, demographic_score)` and the
Unadjusted row holding the raw counterparts. -/
theorem c3_score_table (r : Result ℚ) :
    (display_score_results r).index = ["Adjusted", "Unadjusted"] ∧
    (display_score_results r).columns =
      ["Score", "Disease Score", "Demographic Score"] ∧
    (display_score_results r).cells =
      [[some r.score, some r.disease_score, some r.demographic_score],
       [some r.score_raw, some r.disease_score_raw, some r.demographic_score_raw]] :=
  ⟨rfl, rfl, rfl⟩

/-- C6: the Score Comparison figure is exactly two single-point bar
series, Unadjusted Score over category Unadjusted Score with value
`score_raw` and Score over category Score with value `score`; in
particular `score_raw = 90, score = 100` gives bars 90 and 100. -/
theorem c6_score_comparison :
    (∀ r : Result ℚ, (score_comparison r).data =
      [{ name := "Unadjusted Score"
         x := ["Unadjusted Score"]
         y := [r.score_raw]
         marker_color := some "lightsalmon"
         hovertemplate := none },
       { name := "Score"
         x := ["Score"]
         y := [r.score]
         marker_color := some "indianred"
         hovertemplate := none }]) ∧
    (score_comparison ⟨100, 90, 60, 40, 55, 35, []⟩).data.map BarTrace.y =
      [[90], [100]] :=
  ⟨fun _ => rfl, rfl⟩

/-- C9: the engine call built on a calculate action passes the comma-split
of the raw diagnosis text unmodified, and the empty input splits into a
single-element list holding one empty string. -/
theorem c9_empty_diagnosis_split :
    (∀ inp : AppInputs,
      (engineCall inp).diagnosis_codes = splitChar ',' inp.diagnosis_codes.data) ∧
    (∀ inp : AppInputs, inp.diagnosis_codes = "" →
      (engineCall inp).diagnosis_codes = [""]) := by
  refine ⟨fun _ => rfl, fun inp h => ?_⟩
  simp [engineCall, h]
  rfl

theorem c9_empty_diagnosis_split_witness :
    ((⟨"V24", "M", "0", 65, false, "", 2024, "CNA"⟩ : AppInputs).diagnosis_codes = "") ∧
    (engineCall ⟨"V24", "M", "0", 65, false, "", 2024, "CNA"⟩).diagnosis_codes = [""] :=
  ⟨rfl, c9_empty_diagnosis_split.2 ⟨"V24", "M", "0", 65, false, "", 2024, "CNA"⟩ rfl⟩

section Lemmas2

lemma display_pct_of_ne (r : Result ℚ) (h : r.score ≠ 0) :
    display_score_breakdown_pct r = .ok [.pie
      { labels := ["Disease Score", "Demographic Score"]
        values := [pyRound3 (r.disease_score / r.score),
                   1 - pyRound3 (r.disease_score / r.score)]
        hole := 3/10
        title := "Scores Proportion" }] := by
  simp [display_score_breakdown_pct, pydiv_of_ne h]
  rfl

lemma display_pct_of_zero (r : Result ℚ) (h : r.score = 0) :
    display_score_breakdown_pct r = .error .zeroDivision := by
  simp [display_score_breakdown_pct, h, pydiv_zero]
  rfl

lemma display_score_breakdown_of_zero (r : Result ℚ) (h : r.score = 0) :
    display_score_breakdown r = .error .zeroDivision := by
  simp [display_score_breakdown, score_breakdown_of_zero r h]
  rfl

lemma display_score_breakdown_of_ne (r : Result ℚ) (h : r.score ≠ 0) :
    ∃ fig2, score_breakdown r = .ok fig2 ∧
      display_score_breakdown r = .ok [.chart (score_comparison r), .chart fig2] := by
  refine ⟨_, score_breakdown_of_ne r h, ?_⟩
  simp [display_score_breakdown, score_breakdown_of_ne r h]
  rfl

lemma pyLookup_eq_find? (k : String) (l : List (String × α)) :
    pyLookup k l = (l.find? fun p => p.1 == k).map Prod.snd := by
  induction l with
  | nil => rfl
  | cons p rest ih =>
    by_cases h : p.1 = k <;> simp [pyLookup, List.find?_cons, h, ih]

lemma rowLookup_map_fst (cd : List (String × γ)) (f : String × γ → β) (k : String) :
    rowLookup (cd.map Prod.fst) (cd.map f) k = (cd.find? fun p => p.1 == k).map f := by
  induction cd with
  | nil => rfl
  | cons p rest ih =>
    by_cases h : p.1 = k <;> simp [rowLookup, List.find?_cons, h, ih]

lemma rowLookup_map_self (cols : List String) (g : String → β) (c : String)
    (hc : c ∈ cols) : rowLookup cols (cols.map g) c = some (g c) := by
  induction cols with
  | nil => cases hc
  | cons n ns ih =>
    by_cases h : n = c
    · subst h; simp [rowLookup]
    · have : c ∈ ns := by
        cases hc with
        | head => exact absurd rfl h
        | tail _ hm => exact hm
      simp [rowLookup, h, ih this]

end Lemmas2

/-- C5: for every Result with nonzero score, the Score Proportion pie has
labels Disease Score, Demographic Score and values equal to the two
derived percentages. -/
theorem c5_proportion_pie (r : Result ℚ) (h : r.score ≠ 0) :
    ∃ d, derive r = .ok d ∧
      display_score_breakdown_pct r = .ok [.pie
        { labels := ["Disease Score", "Demographic Score"]
          values := [d.disease_score_pct, d.demographic_score_pct]
          hole := 3/10
          title := "Scores Proportion" }] :=
  ⟨_, derive_of_ne r h, display_pct_of_ne r h⟩

theorem c5_proportion_pie_witness :
    ((⟨100, 90, 60, 40, 55, 35, []⟩ : Result ℚ).score ≠ 0) ∧
    (∃ d, derive ⟨100, 90, 60, 40, 55, 35, []⟩ = .ok d ∧
      display_score_breakdown_pct ⟨100, 90, 60, 40, 55, 35, []⟩ = .ok [.pie
        { labels := ["Disease Score", "Demographic Score"]
          values := [d.disease_score_pct, d.demographic_score_pct]
          hole := 3/10
          title := "Scores Proportion" }]) ∧
    display_score_breakdown_pct ⟨100, 90, 60, 40, 55, 35, []⟩ = .ok [.pie
      { labels := ["Disease Score", "Demographic Score"]
        values := [3/5, 2/5]
        hole := 3/10
        title := "Scores Proportion" }] := by
  refine ⟨by norm_num, c5_proportion_pie ⟨100, 90, 60, 40, 55, 35, []⟩ (by norm_num), ?_⟩
  rw [display_pct_of_ne ⟨100, 90, 60, 40, 55, 35, []⟩ (by norm_num)]
  norm_num [pyRound3, roundHalfEven]

/-- C7: whenever the derivation succeeds, the Score Breakdown series carry
hover annotation strings built at figure-construction time from the
derived percentages multiplied by 100. -/
theorem c7_hover_annotations (r : Result ℚ) (d : DerivedProportions)
    (h : derive r = .ok d) :
    ∃ fig, score_breakdown r = .ok fig ∧
      fig.data.map BarTrace.name = ["Disease Score", "Demographic Score"] ∧
      fig.data.map BarTrace.hovertemplate =
        [some (pctHover (d.disease_score_pct * 100)),
         some (pctHover (d.demographic_score_pct * 100))] := by
  obtain ⟨hne, rfl⟩ := (derive_ok_iff r d).1 h
  exact ⟨_, score_breakdown_of_ne r hne, rfl, rfl⟩

theorem c7_hover_annotations_witness :
    (derive ⟨100, 90, 60, 40, 55, 35, []⟩ =
      .ok ⟨pyRound3 ((60 : ℚ) / 100), 1 - pyRound3 ((60 : ℚ) / 100)⟩) ∧
    (∃ fig, score_breakdown ⟨100, 90, 60, 40, 55, 35, []⟩ = .ok fig ∧
      fig.data.map BarTrace.name = ["Disease Score", "Demographic Score"] ∧
      fig.data.map BarTrace.hovertemplate =
        [some (pctHover (pyRound3 ((60 : ℚ) / 100) * 100)),
         some (pctHover ((1 - pyRound3 ((60 : ℚ) / 100)) * 100))]) :=
  ⟨derive_of_ne ⟨100, 90, 60, 40, 55, 35, []⟩ (by norm_num),
   c7_hover_annotations ⟨100, 90, 60, 40, 55, 35, []⟩
     ⟨pyRound3 ((60 : ℚ) / 100), 1 - pyRound3 ((60 : ℚ) / 100)⟩
     (derive_of_ne ⟨100, 90, 60, 40, 55, 35, []⟩ (by norm_num))⟩

/-- C8: the Category Detail table has one row per category key, its
columns are the union of attribute names in first-appearance order, and a
category lacking an attribute that the column union contains renders that
cell as missing rather than erroring. -/
theorem c8_category_detail (cd : List (String × List (String × ℚ))) :
    (display_category_details cd).index = cd.map Prod.fst ∧
    (display_category_details cd).columns = unionCols cd ∧
    (∀ k attrs c, pyLookup k cd = some attrs → c ∈ unionCols cd →
      pyLookup c attrs = none →
      (display_category_details cd).cell k c = some none) := by
  refine ⟨rfl, rfl, fun k attrs c hk hc hmiss => ?_⟩
  unfold display_category_details dataFrameFromDict Table.cell
  dsimp only
  rw [rowLookup_map_fst]
  rw [pyLookup_eq_find?] at hk
  cases hfind : cd.find? fun p => p.1 == k with
  | none => rw [hfind] at hk; cases hk
  | some p =>
    rw [hfind] at hk
    simp only [Option.map_some'] at hk ⊢
    rw [Option.some_bind]
    rw [rowLookup_map_self (unionCols cd) _ c hc]
    have hp : p.2 = attrs := by injection hk
    rw [hp, hmiss]

theorem c8_category_detail_witness :
    (pyLookup "HCC2" [("HCC1", [("weight", (3 : ℚ)/10)]), ("HCC2", [])] = some []) ∧
    ("weight" ∈ unionCols [("HCC1", [("weight", (3 : ℚ)/10)]), ("HCC2", [])]) ∧
    ((display_category_details
        [("HCC1", [("weight", (3 : ℚ)/10)]), ("HCC2", [])]).index.length = 2) ∧
    (display_category_details
        [("HCC1", [("weight", (3 : ℚ)/10)]), ("HCC2", [])]).cell "HCC2" "weight" =
      some none :=
  ⟨rfl, by decide, rfl,
   (c8_category_detail [("HCC1", [("weight", (3 : ℚ)/10)]), ("HCC2", [])]).2.2
     "HCC2" [] "weight" rfl (by decide) rfl⟩

/-- C2 counterexample: rendering a calculate action whose Result has
score zero does raise an uncaught arithmetic error: the pipeline ends with
ZeroDivisionError instead of omitting the charts with a notice. -/
theorem c2_counterexample :
    (mainRender ⟨0, 0, 0, 0, 0, 0, []⟩).2 = some PyErr.zeroDivision := rfl

/-- C2 amended: for every Result with score zero, the Score Table and
Category Detail views render (they come first), but `score_breakdown`
raises an uncaught ZeroDivisionError, so neither chart, no notice and no
download button follow. -/
theorem c2_amended_zero_score (r : Result ℚ) (h : r.score = 0) :
    (mainRender r).1 =
      [.scoreTable (display_score_results r),
       .categoryTable (display_category_details r.category_details)] ∧
    (mainRender r).2 = some PyErr.zeroDivision := by
  simp [mainRender, display_score_breakdown_of_zero r h]

theorem c2_amended_zero_score_witness :
    ((⟨0, 0, 0, 0, 0, 0, []⟩ : Result ℚ).score = 0) ∧
    ((mainRender ⟨0, 0, 0, 0, 0, 0, []⟩).1 =
      [.scoreTable (display_score_results ⟨0, 0, 0, 0, 0, 0, []⟩),
       .categoryTable (display_category_details [])] ∧
     (mainRender ⟨0, 0, 0, 0, 0, 0, []⟩).2 = some PyErr.zeroDivision) :=
  ⟨rfl, c2_amended_zero_score ⟨0, 0, 0, 0, 0, 0, []⟩ rfl⟩

/-- C10 counterexample: for a calculate action whose Result has score
zero the rendered output is not the claimed five-item sequence: no chart
and no download button appear (only the two tables do). -/
theorem c10_counterexample :
    ((mainRender ⟨0, 0, 0, 0, 0, 0, []⟩).1.any RenderItem.isChart = false) ∧
    ((mainRender ⟨0, 0, 0, 0, 0, 0, []⟩).1.any RenderItem.isDownload = false) ∧
    ((mainRender ⟨0, 0, 0, 0, 0, 0, []⟩).1.length = 2) :=
  ⟨rfl, rfl, rfl⟩

/-- C10 amended: for every calculate action whose Result has nonzero
score, the rendered output is exactly the Score Table, the Category Detail
table, the comparison and breakdown charts and the download button; and
for every Result whatsoever the Score Proportion pie is never rendered. -/
theorem c10_amended_render_pipeline :
    (∀ r : Result ℚ, r.score ≠ 0 → ∃ fig2, score_breakdown r = .ok fig2 ∧
      mainRender r =
        ([.scoreTable (display_score_results r),
          .categoryTable (display_category_details r.category_details),
          .chart (score_comparison r), .chart fig2, .download r], none)) ∧
    (∀ r : Result ℚ, (mainRender r).1.any RenderItem.isPie = false) := by
  constructor
  · intro r h
    obtain ⟨fig2, hf, hd⟩ := display_score_breakdown_of_ne r h
    refine ⟨fig2, hf, ?_⟩
    simp [mainRender, hd]
  · intro r
    by_cases h : r.score = 0
    · simp [mainRender, display_score_breakdown_of_zero r h, RenderItem.isPie]
    · obtain ⟨fig2, _, hd⟩ := display_score_breakdown_of_ne r h
      simp [mainRender, hd, RenderItem.isPie]

theorem c10_amended_render_pipeline_witness :
    ((⟨100, 90, 60, 40, 55, 35, []⟩ : Result ℚ).score ≠ 0) ∧
    (∃ fig2, score_breakdown ⟨100, 90, 60, 40, 55, 35, []⟩ = .ok fig2 ∧
      mainRender ⟨100, 90, 60, 40, 55, 35, []⟩ =
        ([.scoreTable (display_score_results ⟨100, 90, 60, 40, 55, 35, []⟩),
          .categoryTable (display_category_details []),
          .chart (score_comparison ⟨100, 90, 60, 40, 55, 35, []⟩),
          .chart fig2, .download ⟨100, 90, 60, 40, 55, 35, []⟩], none)) :=
  ⟨by norm_num,
   c10_amended_render_pipeline.1 ⟨100, 90, 60, 40, 55, 35, []⟩ (by norm_num)⟩

section JsonLemmas

lemma natDigitsAux_lt10 : ∀ (fuel n : Nat), ∀ d ∈ natDigitsAux fuel n, d < 10 := by
  intro fuel
  induction fuel with
  | zero => intro n d hd; simp [natDigitsAux] at hd
  | succ fuel ih =>
    intro n d hd
    cases n with
    | zero => simp [natDigitsAux] at hd
    | succ m =>
      simp only [natDigitsAux, List.mem_cons] at hd
      cases hd with
      | inl h => subst h; exact Nat.mod_lt _ (by omega)
      | inr h => exact ih _ d h

lemma digitsVal_natDigitsAux : ∀ (fuel n : Nat), n ≤ fuel →
    digitsVal (natDigitsAux fuel n) = n := by
  intro fuel
  induction fuel with
  | zero => intro n h; interval_cases n; rfl
  | succ fuel ih =>
    intro n h
    cases n with
    | zero => rfl
    | succ m =>
      have hdiv : (m + 1) / 10 ≤ fuel := by
        have := Nat.div_lt_self (Nat.succ_pos m) (by omega : 1 < 10)
        omega
      simp only [natDigitsAux, digitsVal, ih _ hdiv]
      omega

lemma printDigits_lt10 (n : Nat) : ∀ d ∈ printDigits n, d < 10 := by
  intro d hd
  by_cases h : n = 0
  · simp [printDigits, h] at hd; omega
  · simp only [printDigits, h, if_false, List.mem_reverse] at hd
    exact natDigitsAux_lt10 n n d hd

lemma printDigits_ne_nil (n : Nat) : printDigits n ≠ [] := by
  by_cases h : n = 0
  · simp [printDigits, h]
  · simp only [printDigits, h, if_false, ne_eq, List.reverse_eq_nil_iff]
    cases n with
    | zero => omega
    | succ m => simp [natDigits, natDigitsAux]

lemma digitsVal_printDigits_reverse (n : Nat) :
    digitsVal (printDigits n).reverse = n := by
  by_cases h : n = 0
  · simp [printDigits, h, digitsVal]
  · simp only [printDigits, h, if_false, List.reverse_reverse]
    exact digitsVal_natDigitsAux n n le_rfl

lemma charDigit_digitChar {d : Nat} (h : d < 10) : charDigit (digitChar d) = d := by
  interval_cases d <;> decide

lemma isDigitChar_digitChar {d : Nat} (h : d < 10) :
    isDigitChar (digitChar d) = true := by
  interval_cases d <;> decide

lemma isWsChar_digitChar {d : Nat} (h : d < 10) :
    isWsChar (digitChar d) = false := by
  interval_cases d <;> decide

lemma digitChar_ne_brace {d : Nat} (h : d < 10) : digitChar d ≠ '{' := by
  interval_cases d <;> decide

lemma digitChar_ne_quote {d : Nat} (h : d < 10) : digitChar d ≠ '"' := by
  interval_cases d <;> decide

lemma digitChar_ne_minus {d : Nat} (h : d < 10) : digitChar d ≠ '-' := by
  interval_cases d <;> decide

lemma skipWs_cons_ws {c : Char} (h : isWsChar c = true) (cs : List Char) :
    skipWs (c :: cs) = skipWs cs := by
  simp [skipWs, h]

lemma skipWs_cons_not {c : Char} (h : isWsChar c = false) (cs : List Char) :
    skipWs (c :: cs) = c :: cs := by
  simp [skipWs, h]

lemma skipWs_replicate (n : Nat) (cs : List Char) :
    skipWs (List.replicate n ' ' ++ cs) = skipWs cs := by
  induction n with
  | zero => rfl
  | succ n ih => simpa [skipWs, isWsChar] using ih

lemma skipWs_jIndent (lvl : Nat) (cs : List Char) :
    skipWs (jIndent lvl ++ cs) = skipWs cs := skipWs_replicate _ cs

lemma skipWs_idem (cs : List Char) : skipWs (skipWs cs) = skipWs cs := by
  induction cs with
  | nil => rfl
  | cons c cs ih =>
    by_cases h : isWsChar c = true
    · simp [skipWs, h, ih]
    · simp only [Bool.not_eq_true] at h
      simp [skipWs, h]

lemma parseVal_congr {fuel : Nat} {cs cs' : List Char}
    (h : skipWs cs = skipWs cs') :
    parseVal (fuel + 1) cs = parseVal (fuel + 1) cs' := by
  rw [parseVal, parseVal, h]

lemma parseMembers_congr {fuel : Nat} {cs cs' : List Char}
    (h : skipWs cs = skipWs cs') :
    parseMembers (fuel + 1) cs = parseMembers (fuel + 1) cs' := by
  rw [parseMembers, parseMembers, h]

lemma strMkData (s : String) : String.mk s.data = s := by
  cases s
  rfl

lemma strWFb_ne_quote {s : String} (h : strWFb s = true) :
    ∀ c ∈ s.data, c ≠ '"' := by
  intro c hc
  simp only [strWFb, List.all_eq_true] at h
  have := h c hc
  simp only [Bool.and_eq_true, Bool.not_eq_true', beq_eq_false_iff_ne] at this
  exact this.1.2

lemma parseStrAux_print (l rest : List Char) (h : ∀ c ∈ l, c ≠ '"') :
    parseStrAux (l ++ '"' :: rest) = some (l, rest) := by
  induction l with
  | nil => simp [parseStrAux]
  | cons c cs ih =>
    have hc : c ≠ '"' := h c (List.mem_cons_self c cs)
    have ih' := ih fun x hx => h x (List.mem_cons_of_mem c hx)
    simp [parseStrAux, hc, ih']

lemma grabDigits_print (ds : List Nat) (rest : List Char)
    (h10 : ∀ d ∈ ds, d < 10)
    (hrest : ∀ c cs, rest = c :: cs → isDigitChar c = false) :
    grabDigits (ds.map digitChar ++ rest) = (ds, rest) := by
  induction ds with
  | nil =>
    cases rest with
    | nil => rfl
    | cons c cs => simp [grabDigits, hrest c cs rfl]
  | cons d ds ih =>
    have hd : d < 10 := h10 d (List.mem_cons_self d ds)
    have ih' := ih fun x hx => h10 x (List.mem_cons_of_mem d hx)
    simp [grabDigits, isDigitChar_digitChar hd, ih', charDigit_digitChar hd]

lemma parseNum_print (neg : Bool) (n : Nat) (frac : List Nat) (rest : List Char)
    (hf : ∀ d ∈ frac, d < 10)
    (hrest : ∀ c cs, rest = c :: cs → isDigitChar c = false ∧ c ≠ '.') :
    parseNum neg (printNat n ++
      (match frac with
       | [] => []
       | fs => '.' :: fs.map digitChar) ++ rest) =
      some (.num neg n frac, rest) := by
  cases frac with
  | nil =>
    have hg := grabDigits_print (printDigits n) rest (printDigits_lt10 n)
      (fun c cs h => (hrest c cs h).1)
    rw [show (printNat n ++ [] ++ rest) = (printDigits n).map digitChar ++ rest by
      simp [printNat]]
    cases hpd : printDigits n with
    | nil => exact absurd hpd (printDigits_ne_nil n)
    | cons d ds =>
      rw [hpd] at hg
      have hip : digitsVal (d :: ds).reverse = n := by
        rw [← hpd]; exact digitsVal_printDigits_reverse n
      simp only [parseNum, hg, hip]
      cases rest with
      | nil => rfl
      | cons c cs =>
        have hc := (hrest c cs rfl).2
        cases hcc : c with
        | mk v =>
          rw [← hcc]
          split
          · rename_i heq
            exact absurd (List.head_eq_of_cons_eq heq) hc
          · rfl
  | cons f fs =>
    have hg := grabDigits_print (printDigits n) ('.' :: (f :: fs).map digitChar ++ rest)
      (printDigits_lt10 n) (fun c cs h => by
        cases h; decide)
    have hg2 := grabDigits_print (f :: fs) rest hf (fun c cs h => (hrest c cs h).1)
    rw [show (printNat n ++ ('.' :: (f :: fs).map digitChar) ++ rest) =
        (printDigits n).map digitChar ++ ('.' :: (f :: fs).map digitChar ++ rest) by
      simp [printNat]]
    cases hpd : printDigits n with
    | nil => exact absurd hpd (printDigits_ne_nil n)
    | cons d ds =>
      rw [hpd] at hg
      have hip : digitsVal (d :: ds).reverse = n := by
        rw [← hpd]; exact digitsVal_printDigits_reverse n
      simp only [List.map_cons, List.cons_append] at hg hg2
      simp only [parseNum, List.map_cons, List.cons_append, hg, hg2, hip]


lemma jsize_pos (j : Json) : 1 ≤ jsize j := by
  cases j <;> simp [jsize]

lemma msize_cons_pos (k : String) (v : Json) (fs : List (String × Json)) :
    1 ≤ msize ((k, v) :: fs) := by
  simp [msize]
  omega

lemma parseVal_step_minus (fuel : Nat) (cs : List Char) :
    parseVal (fuel + 1) ('-' :: cs) = parseNum true cs := by
  rw [parseVal, skipWs_cons_not (by decide : isWsChar '-' = false)]
  dsimp only
  rw [if_neg (by decide : ¬ ('-' = '{')), if_neg (by decide : ¬ ('-' = '"')),
    if_pos rfl]

lemma parseVal_step_digit (fuel : Nat) (c : Char) (cs : List Char)
    (hws : isWsChar c = false) (h1 : c ≠ '{') (h2 : c ≠ '"') (h3 : c ≠ '-')
    (h4 : isDigitChar c = true) :
    parseVal (fuel + 1) (c :: cs) = parseNum false (c :: cs) := by
  rw [parseVal, skipWs_cons_not hws]
  dsimp only
  rw [if_neg h1, if_neg h2, if_neg h3, if_pos h4]

lemma parseVal_step_quote (fuel : Nat) (cs : List Char) :
    parseVal (fuel + 1) ('"' :: cs) =
      (parseStrAux cs).map fun p => (.str (String.mk p.1), p.2) := by
  rw [parseVal, skipWs_cons_not (by decide : isWsChar '"' = false)]
  dsimp only
  rw [if_neg (by decide : ¬ ('"' = '{')), if_pos rfl]

lemma parseVal_step_brace (fuel : Nat) (cs : List Char) :
    parseVal (fuel + 1) ('{' :: cs) =
      (if (skipWs cs).head? = some '}' then some (.obj [], (skipWs cs).tail)
       else (parseMembers fuel (skipWs cs)).map fun p => (.obj p.1, p.2)) := by
  rw [parseVal, skipWs_cons_not (by decide : isWsChar '{' = false)]
  dsimp only
  rw [if_pos rfl]

lemma parseNum_print_nil (neg : Bool) (n : Nat) (rest : List Char)
    (hrest : ∀ c cs, rest = c :: cs → isDigitChar c = false ∧ c ≠ '.') :
    parseNum neg (printNat n ++ rest) = some (.num neg n [], rest) := by
  have h := parseNum_print neg n [] rest (by simp) hrest
  simpa using h

lemma parseNum_print_cons (neg : Bool) (n f : Nat) (fs : List Nat) (rest : List Char)
    (hf : ∀ d ∈ f :: fs, d < 10)
    (hrest : ∀ c cs, rest = c :: cs → isDigitChar c = false ∧ c ≠ '.') :
    parseNum neg (printNat n ++ '.' :: digitChar f :: (fs.map digitChar ++ rest)) =
      some (.num neg n (f :: fs), rest) := by
  have h := parseNum_print neg n (f :: fs) rest hf hrest
  simpa [List.append_assoc] using h

lemma parseVal_print_num (fuel : Nat) (neg : Bool) (ip : Nat) (frac : List Nat)
    (lvl : Nat) (rest : List Char)
    (hfr : ∀ d ∈ frac, d < 10)
    (hrest : ∀ c cs, rest = c :: cs → isDigitChar c = false ∧ c ≠ '.') :
    parseVal (fuel + 1) (printVal (.num neg ip frac) lvl ++ rest) =
      some (.num neg ip frac, rest) := by
  cases hpd : printDigits ip with
  | nil => exact absurd hpd (printDigits_ne_nil ip)
  | cons d ds =>
    have hd10 : d < 10 :=
      printDigits_lt10 ip d (by rw [hpd]; exact List.mem_cons_self d ds)
    have hpn : printNat ip = digitChar d :: ds.map digitChar := by
      rw [printNat, hpd, List.map_cons]
    cases neg with
    | true =>
      cases frac with
      | nil =>
        rw [printVal]
        rw [List.append_nil, if_pos rfl]
        simp only [List.singleton_append, List.cons_append]
        rw [parseVal_step_minus]
        exact parseNum_print_nil true ip rest hrest
      | cons f fs =>
        rw [printVal]
        rw [if_pos rfl]
        simp only [List.singleton_append, List.cons_append, List.map_cons,
          List.append_assoc]
        rw [parseVal_step_minus]
        exact parseNum_print_cons true ip f fs rest hfr hrest
        exact fun h => List.noConfusion h
    | false =>
      cases frac with
      | nil =>
        rw [printVal]
        rw [List.append_nil, if_neg (by decide : ¬ (false = true)),
          List.nil_append, hpn]
        simp only [List.cons_append]
        rw [parseVal_step_digit fuel (digitChar d) _ (isWsChar_digitChar hd10)
          (digitChar_ne_brace hd10) (digitChar_ne_quote hd10)
          (digitChar_ne_minus hd10) (isDigitChar_digitChar hd10)]
        rw [show digitChar d :: (List.map digitChar ds ++ rest) =
          printNat ip ++ rest by rw [hpn]; simp]
        exact parseNum_print_nil false ip rest hrest
      | cons f fs =>
        rw [printVal]
        rw [if_neg (by decide : ¬ (false = true)), List.nil_append, hpn]
        simp only [List.cons_append, List.map_cons, List.append_assoc]
        rw [parseVal_step_digit fuel (digitChar d) _ (isWsChar_digitChar hd10)
          (digitChar_ne_brace hd10) (digitChar_ne_quote hd10)
          (digitChar_ne_minus hd10) (isDigitChar_digitChar hd10)]
        rw [show digitChar d :: (List.map digitChar ds ++
            '.' :: digitChar f :: (List.map digitChar fs ++ rest)) =
          printNat ip ++ '.' :: digitChar f :: (List.map digitChar fs ++ rest) by
          rw [hpn]; simp]
        exact parseNum_print_cons false ip f fs rest hfr hrest
        exact fun h => List.noConfusion h

lemma parseVal_print_str (fuel : Nat) (s : String) (lvl : Nat) (rest : List Char)
    (hq : ∀ c ∈ s.data, c ≠ '"') :
    parseVal (fuel + 1) (printVal (.str s) lvl ++ rest) = some (.str s, rest) := by
  rw [printVal]
  rw [show ('"' :: (s.data ++ ['"'])) ++ rest = '"' :: (s.data ++ '"' :: rest) by simp]
  rw [parseVal_step_quote]
  rw [parseStrAux_print s.data rest hq]
  simp [strMkData]

lemma parseVal_print_objnil (fuel : Nat) (lvl : Nat) (rest : List Char) :
    parseVal (fuel + 1) (printVal (.obj []) lvl ++ rest) = some (.obj [], rest) := by
  rw [printVal]
  rw [show (['{', '}'] ++ rest) = '{' :: ('}' :: rest) by simp]
  rw [parseVal_step_brace]
  rw [skipWs_cons_not (by decide : isWsChar '}' = false)]
  simp

lemma membersWFb_cons {k : String} {v : Json} {fs : List (String × Json)}
    (h : membersWFb ((k, v) :: fs) = true) :
    strWFb k = true ∧ jsonWFb v = true ∧ membersWFb fs = true := by
  simpa [membersWFb, Bool.and_eq_true, and_assoc] using h

lemma isDelim_not_digit {rest : List Char} (h : IsDelim rest) :
    ∀ c cs, rest = c :: cs → isDigitChar c = false ∧ c ≠ '.' := by
  intro c cs hceq
  rcases h with h0 | ⟨c', cs', hc', hor⟩
  · rw [h0] at hceq; cases hceq
  · rw [hc'] at hceq
    have hc : c = c' := List.head_eq_of_cons_eq hceq.symm
    subst hc
    rcases hor with h1 | h1 <;> subst h1 <;> exact ⟨by decide, by decide⟩

lemma skipWs_printMembers_single (k : String) (v : Json) (lvl : Nat)
    (tail : List Char) :
    skipWs (printMembers [(k, v)] lvl ++ tail) =
      '"' :: (k.data ++ '"' :: ':' :: ' ' :: (printVal v lvl ++ tail)) := by
  rw [printMembers]
  simp [List.append_assoc, skipWs_jIndent,
    skipWs_cons_not (by decide : isWsChar '"' = false)]

lemma skipWs_printMembers_more (k : String) (v : Json) (f2 : String × Json)
    (fs2 : List (String × Json)) (lvl : Nat) (tail : List Char) :
    skipWs (printMembers ((k, v) :: f2 :: fs2) lvl ++ tail) =
      '"' :: (k.data ++ '"' :: ':' :: ' ' :: (printVal v lvl ++
        ',' :: '\n' :: (printMembers (f2 :: fs2) lvl ++ tail))) := by
  rw [printMembers]
  simp [List.append_assoc, skipWs_jIndent,
    skipWs_cons_not (by decide : isWsChar '"' = false)]

lemma parseVal_print_objcons (m : Nat) (k : String) (v : Json)
    (fs2 : List (String × Json)) (lvl : Nat) (rest : List Char)
    (hQ : parseMembers (m + 1) (printMembers ((k, v) :: fs2) (lvl + 1) ++
        '\n' :: (List.replicate (4 * lvl) ' ' ++ '}' :: rest)) =
      some ((k, v) :: fs2, rest)) :
    parseVal (m + 1 + 1) (printVal (.obj ((k, v) :: fs2)) lvl ++ rest) =
      some (.obj ((k, v) :: fs2), rest) := by
  obtain ⟨X, hX⟩ : ∃ X, skipWs (printMembers ((k, v) :: fs2) (lvl + 1) ++
      '\n' :: (List.replicate (4 * lvl) ' ' ++ '}' :: rest)) = '"' :: X := by
    cases fs2 with
    | nil => exact ⟨_, skipWs_printMembers_single k v (lvl + 1) _⟩
    | cons f2 fs2' => exact ⟨_, skipWs_printMembers_more k v f2 fs2' (lvl + 1) _⟩
  rw [printVal]
  rw [show ('{' :: '\n' :: (printMembers ((k, v) :: fs2) (lvl + 1) ++
      '\n' :: (jIndent lvl ++ ['}']))) ++ rest =
    '{' :: ('\n' :: (printMembers ((k, v) :: fs2) (lvl + 1) ++
      '\n' :: (List.replicate (4 * lvl) ' ' ++ '}' :: rest))) by
    simp [jIndent]]
  rw [parseVal_step_brace]
  rw [skipWs_cons_ws (by decide : isWsChar '\n' = true), hX]
  simp only [List.head?_cons]
  rw [if_neg (by decide : ¬ ((some '"' : Option Char) = some '}'))]
  rw [parseMembers_congr (show skipWs ('"' :: X) =
      skipWs (printMembers ((k, v) :: fs2) (lvl + 1) ++
        '\n' :: (List.replicate (4 * lvl) ' ' ++ '}' :: rest)) by
    rw [← hX]; exact skipWs_idem _)]
  rw [hQ]
  rfl

/-- The printer and the parser invert: with enough fuel, parsing the
characters emitted for a well-formed document, followed by a delimiter-led
rest, returns exactly the document and the rest. -/
theorem parsePrint (fuel : Nat) :
    (∀ j lvl rest, jsonWFb j = true → jsize j ≤ fuel → IsDelim rest →
      parseVal fuel (printVal j lvl ++ rest) = some (j, rest)) ∧
    (∀ fs lvl sp rest, fs ≠ [] → membersWFb fs = true → msize fs ≤ fuel →
      parseMembers fuel
        (printMembers fs lvl ++ '\n' :: (List.replicate sp ' ' ++ '}' :: rest)) =
        some (fs, rest)) := by
  induction fuel with
  | zero =>
    constructor
    · intro j _ _ _ hsz _
      have := jsize_pos j
      omega
    · intro fs _ _ _ hne _ hsz
      cases fs with
      | nil => exact absurd rfl hne
      | cons f fs2 =>
        obtain ⟨k, v⟩ := f
        have := msize_cons_pos k v fs2
        omega
  | succ fuel ih =>
    obtain ⟨ihP, ihQ⟩ := ih
    constructor
    · intro j lvl rest hwf hsz hdelim
      have hrest := isDelim_not_digit hdelim
      cases j with
      | num neg ip frac =>
        refine parseVal_print_num fuel neg ip frac lvl rest ?_ hrest
        intro d hd
        simp only [jsonWFb, List.all_eq_true, decide_eq_true_eq] at hwf
        exact hwf d hd
      | str s =>
        exact parseVal_print_str fuel s lvl rest
          (strWFb_ne_quote (by simpa [jsonWFb] using hwf))
      | obj fs =>
        cases fs with
        | nil => exact parseVal_print_objnil fuel lvl rest
        | cons f fs2 =>
          obtain ⟨k, v⟩ := f
          have hwf' : membersWFb ((k, v) :: fs2) = true := by
            simpa [jsonWFb] using hwf
          have hsz' : msize ((k, v) :: fs2) ≤ fuel := by
            simp only [jsize] at hsz
            omega
          have hfuel1 : 1 ≤ fuel := le_trans (msize_cons_pos k v fs2) hsz'
          obtain ⟨m, rfl⟩ : ∃ m, fuel = m + 1 := ⟨fuel - 1, by omega⟩
          exact parseVal_print_objcons m k v fs2 lvl rest
            (ihQ ((k, v) :: fs2) (lvl + 1) (4 * lvl) rest (by simp) hwf' hsz')
    · intro fs lvl sp rest hne hwf hsz
      cases fs with
      | nil => exact absurd rfl hne
      | cons f fs2 =>
        obtain ⟨k, v⟩ := f
        obtain ⟨hkWF, hvWF, hfsWF⟩ := membersWFb_cons hwf
        have hvsz : jsize v ≤ fuel := by
          simp only [msize] at hsz
          omega
        have hvfuel : 1 ≤ fuel := le_trans (jsize_pos v) hvsz
        obtain ⟨m, rfl⟩ : ∃ m, fuel = m + 1 := ⟨fuel - 1, by omega⟩
        cases fs2 with
        | nil =>
          rw [parseMembers]
          rw [skipWs_printMembers_single]
          dsimp only
          rw [if_pos rfl]
          rw [parseStrAux_print k.data _ (strWFb_ne_quote hkWF)]
          dsimp only
          rw [skipWs_cons_not (by decide : isWsChar ':' = false)]
          dsimp only
          rw [if_pos rfl]
          rw [show parseVal (m + 1) (' ' :: (printVal v lvl ++
              '\n' :: (List.replicate sp ' ' ++ '}' :: rest))) =
            some (v, '\n' :: (List.replicate sp ' ' ++ '}' :: rest)) by
            rw [parseVal_congr (skipWs_cons_ws (by decide : isWsChar ' ' = true) _)]
            exact ihP v lvl _ hvWF hvsz (Or.inr ⟨'\n', _, rfl, Or.inr rfl⟩)]
          dsimp only
          rw [skipWs_cons_ws (by decide : isWsChar '\n' = true), skipWs_replicate,
            skipWs_cons_not (by decide : isWsChar '}' = false)]
          dsimp only
          rw [if_neg (by decide : ¬ ('}' = ',')), if_pos rfl, strMkData]
        | cons f2 fs2' =>
          obtain ⟨k2, v2⟩ := f2
          have hmsz : msize ((k2, v2) :: fs2') ≤ m + 1 := by
            simp only [msize] at hsz ⊢
            have := jsize_pos v
            omega
          rw [parseMembers]
          rw [skipWs_printMembers_more]
          dsimp only
          rw [if_pos rfl]
          rw [parseStrAux_print k.data _ (strWFb_ne_quote hkWF)]
          dsimp only
          rw [skipWs_cons_not (by decide : isWsChar ':' = false)]
          dsimp only
          rw [if_pos rfl]
          rw [show parseVal (m + 1) (' ' :: (printVal v lvl ++
              ',' :: '\n' :: (printMembers ((k2, v2) :: fs2') lvl ++
                '\n' :: (List.replicate sp ' ' ++ '}' :: rest)))) =
            some (v, ',' :: '\n' :: (printMembers ((k2, v2) :: fs2') lvl ++
              '\n' :: (List.replicate sp ' ' ++ '}' :: rest))) by
            rw [parseVal_congr (skipWs_cons_ws (by decide : isWsChar ' ' = true) _)]
            exact ihP v lvl _ hvWF hvsz (Or.inr ⟨',', _, rfl, Or.inl rfl⟩)]
          dsimp only
          rw [skipWs_cons_not (by decide : isWsChar ',' = false)]
          dsimp only
          rw [if_pos rfl]
          rw [parseMembers_congr (skipWs_cons_ws (by decide : isWsChar '\n' = true) _)]
          rw [ihQ ((k2, v2) :: fs2') lvl sp rest (by simp) hfsWF hmsz]
          simp [strMkData]

lemma printNat_ne_nil (n : Nat) : printNat n ≠ [] := by
  simp only [printNat, ne_eq, List.map_eq_nil_iff]
  exact printDigits_ne_nil n

/-- A document never outsizes its printed form, so input length is enough
parser fuel. -/
theorem sizeLePrint (n : Nat) :
    (∀ j lvl, jsize j ≤ n → jsize j ≤ (printVal j lvl).length) ∧
    (∀ fs lvl, msize fs ≤ n → msize fs ≤ (printMembers fs lvl).length) := by
  induction n with
  | zero =>
    constructor
    · intro j _ h
      have := jsize_pos j
      omega
    · intro fs _ h
      cases fs with
      | nil => simp [msize]
      | cons f fs2 =>
        obtain ⟨k, v⟩ := f
        have := msize_cons_pos k v fs2
        omega
  | succ n ih =>
    obtain ⟨ihP, ihQ⟩ := ih
    constructor
    · intro j lvl hsz
      cases j with
      | num neg ip frac =>
        have h1 : 1 ≤ (printNat ip).length :=
          List.length_pos.mpr (printNat_ne_nil ip)
        cases neg <;> cases frac <;>
          simp [printVal, jsize, List.length_append] <;> omega
      | str s => simp [printVal, jsize]
      | obj fs =>
        cases fs with
        | nil => simp [printVal, jsize, msize]
        | cons f fs2 =>
          obtain ⟨k, v⟩ := f
          have hm : msize ((k, v) :: fs2) ≤ n := by
            simp only [jsize] at hsz
            omega
          have := ihQ ((k, v) :: fs2) (lvl + 1) hm
          simp only [jsize, printVal, List.length_cons, List.length_append,
            jIndent, List.length_replicate]
          omega
    · intro fs lvl hsz
      cases fs with
      | nil => simp [msize]
      | cons f fs2 =>
        obtain ⟨k, v⟩ := f
        have hv : jsize v ≤ n := by
          simp only [msize] at hsz
          omega
        have hv' := ihP v lvl hv
        cases fs2 with
        | nil =>
          simp only [msize, printMembers, List.length_append, List.length_cons,
            jIndent, List.length_replicate]
          simp [msize]
          omega
        | cons f2 fs2' =>
          obtain ⟨k2, v2⟩ := f2
          have hm2 : msize ((k2, v2) :: fs2') ≤ n := by
            simp only [msize] at hsz ⊢
            have := jsize_pos v
            omega
          have hq := ihQ ((k2, v2) :: fs2') lvl hm2
          rw [printMembers]
          rw [show msize ((k, v) :: (k2, v2) :: fs2') =
            1 + jsize v + msize ((k2, v2) :: fs2') from rfl]
          simp only [List.length_append, List.length_cons, jIndent,
            List.length_replicate]
          omega

/-- Round trip of the export serializer at the document level. -/
theorem loads_dumps {j : Json} (h : jsonWFb j = true) : loads (dumps j) = some j := by
  have hb := (sizeLePrint (jsize j)).1 j 0 le_rfl
  have hfuel : jsize j ≤ (printVal j 0).length + 1 := by omega
  have hP := (parsePrint ((printVal j 0).length + 1)).1 j 0 [] h hfuel (Or.inl rfl)
  rw [List.append_nil] at hP
  unfold loads dumps
  rw [show (String.mk (printVal j 0)).length = (printVal j 0).length from rfl]
  rw [show (String.mk (printVal j 0)).data = printVal j 0 from rfl]
  rw [hP]
  rfl

lemma jsonAttrs_map (attrs : List (String × PyNum)) :
    jsonAttrs (.obj (attrs.map fun av => (av.1, av.2.toJson))) = some attrs := by
  induction attrs with
  | nil => rfl
  | cons a rest ih =>
    obtain ⟨nm, pn⟩ := a
    obtain ⟨neg, ip, frac⟩ := pn
    simp only [jsonAttrs] at ih ⊢
    simp only [PyNum.toJson] at ih
    simp [attrsFrom, PyNum.toJson, jsonNum, ih]

lemma jsonCd_map (cd : List (String × List (String × PyNum))) :
    jsonCd (.obj (cd.map fun kc =>
      (kc.1, .obj (kc.2.map fun av => (av.1, av.2.toJson))))) = some cd := by
  induction cd with
  | nil => rfl
  | cons a rest ih =>
    obtain ⟨nm, attrs⟩ := a
    simp only [jsonCd] at ih ⊢
    have ha := jsonAttrs_map attrs
    simp only [PyNum.toJson] at ih ha
    simp [cdFrom, PyNum.toJson, ha, ih]

lemma fromDoc_asdict (r : Result PyNum) : fromDoc (asdict r) = some r := by
  obtain ⟨s1, s2, s3, s4, s5, s6, cd⟩ := r
  obtain ⟨n1, i1, f1⟩ := s1
  obtain ⟨n2, i2, f2⟩ := s2
  obtain ⟨n3, i3, f3⟩ := s3
  obtain ⟨n4, i4, f4⟩ := s4
  obtain ⟨n5, i5, f5⟩ := s5
  obtain ⟨n6, i6, f6⟩ := s6
  have hcd := jsonCd_map cd
  simp only [PyNum.toJson] at hcd
  simp [fromDoc, asdict, pyLookup, PyNum.toJson, jsonNum, hcd]

/-- C4: the exported document round-trips: parsing the serialized JSON of
a Result succeeds and returns the same document, re-serializing the parse
yields the identical byte string, and reconstructing the Result from the
parsed document recovers every field including `category_details`. -/
theorem c4_export_roundtrip (r : Result PyNum)
    (h : jsonWFb (asdict r) = true) :
    loads (dumps (asdict r)) = some (asdict r) ∧
    Option.map dumps (loads (dumps (asdict r))) = some (dumps (asdict r)) ∧
    fromDoc (asdict r) = some r := by
  refine ⟨loads_dumps h, ?_, fromDoc_asdict r⟩
  rw [loads_dumps h]
  rfl

theorem c4_export_roundtrip_witness :
    (jsonWFb (asdict
      { score := ⟨false, 1, [2, 3]⟩
        score_raw := ⟨false, 0, [9]⟩
        disease_score := ⟨false, 0, [7, 3]⟩
        demographic_score := ⟨false, 0, [5]⟩
        disease_score_raw := ⟨false, 0, [4]⟩
        demographic_score_raw := ⟨true, 0, [5]⟩
        category_details :=
          [("HCC1", [("coefficient", ⟨false, 0, [3]⟩), ("weight", ⟨false, 1, [0]⟩)]),
           ("HCC2", [])] }) = true) ∧
    (loads (dumps (asdict
      { score := ⟨false, 1, [2, 3]⟩
        score_raw := ⟨false, 0, [9]⟩
        disease_score := ⟨false, 0, [7, 3]⟩
        demographic_score := ⟨false, 0, [5]⟩
        disease_score_raw := ⟨false, 0, [4]⟩
        demographic_score_raw := ⟨true, 0, [5]⟩
        category_details :=
          [("HCC1", [("coefficient", ⟨false, 0, [3]⟩), ("weight", ⟨false, 1, [0]⟩)]),
           ("HCC2", [])] })) = some (asdict
      { score := ⟨false, 1, [2, 3]⟩
        score_raw := ⟨false, 0, [9]⟩
        disease_score := ⟨false, 0, [7, 3]⟩
        demographic_score := ⟨false, 0, [5]⟩
        disease_score_raw := ⟨false, 0, [4]⟩
        demographic_score_raw := ⟨true, 0, [5]⟩
        category_details :=
          [("HCC1", [("coefficient", ⟨false, 0, [3]⟩), ("weight", ⟨false, 1, [0]⟩)]),
           ("HCC2", [])] }) ∧
     Option.map dumps (loads (dumps (asdict
      { score := ⟨false, 1, [2, 3]⟩
        score_raw := ⟨false, 0, [9]⟩
        disease_score := ⟨false, 0, [7, 3]⟩
        demographic_score := ⟨false, 0, [5]⟩
        disease_score_raw := ⟨false, 0, [4]⟩
        demographic_score_raw := ⟨true, 0, [5]⟩
        category_details :=
          [("HCC1", [("coefficient", ⟨false, 0, [3]⟩), ("weight", ⟨false, 1, [0]⟩)]),
           ("HCC2", [])] }))) = some (dumps (asdict
      { score := ⟨false, 1, [2, 3]⟩
        score_raw := ⟨false, 0, [9]⟩
        disease_score := ⟨false, 0, [7, 3]⟩
        demographic_score := ⟨false, 0, [5]⟩
        disease_score_raw := ⟨false, 0, [4]⟩
        demographic_score_raw := ⟨true, 0, [5]⟩
        category_details :=
          [("HCC1", [("coefficient", ⟨false, 0, [3]⟩), ("weight", ⟨false, 1, [0]⟩)]),
           ("HCC2", [])] })) ∧
     fromDoc (asdict
      { score := ⟨false, 1, [2, 3]⟩
        score_raw := ⟨false, 0, [9]⟩
        disease_score := ⟨false, 0, [7, 3]⟩
        demographic_score := ⟨false, 0, [5]⟩
        disease_score_raw := ⟨false, 0, [4]⟩
        demographic_score_raw := ⟨true, 0, [5]⟩
        category_details :=
          [("HCC1", [("coefficient", ⟨false, 0, [3]⟩), ("weight", ⟨false, 1, [0]⟩)]),
           ("HCC2", [])] }) = some
      { score := ⟨false, 1, [2, 3]⟩
        score_raw := ⟨false, 0, [9]⟩
        disease_score := ⟨false, 0, [7, 3]⟩
        demographic_score := ⟨false, 0, [5]⟩
        disease_score_raw := ⟨false, 0, [4]⟩
        demographic_score_raw := ⟨true, 0, [5]⟩
        category_details :=
          [("HCC1", [("coefficient", ⟨false, 0, [3]⟩), ("weight", ⟨false, 1, [0]⟩)]),
           ("HCC2", [])] }) :=
  ⟨by decide,
   c4_export_roundtrip
     { score := ⟨false, 1, [2, 3]⟩
       score_raw := ⟨false, 0, [9]⟩
       disease_score := ⟨false, 0, [7, 3]⟩
       demographic_score := ⟨false, 0, [5]⟩
       disease_score_raw := ⟨false, 0, [4]⟩
       demographic_score_raw := ⟨true, 0, [5]⟩
       category_details :=
         [("HCC1", [("coefficient", ⟨false, 0, [3]⟩), ("weight", ⟨false, 1, [0]⟩)]),
          ("HCC2", [])] }
     (by decide)⟩

end JsonLemmas

end RiskApp
